import Mathlib

/-!
Verification of src/lib/main/lang/programManager.ts (atom-typescript).

The file shallowly embeds the program-manager module: the fixed-point
closure expansion over referenced/imported files, the text-edit splicing
used for formatting, the per-project-root program cache, the tiered
diagnostics retrieval, and the emit-and-write-outputs routine.

External collaborators (the TypeScript language service, the node path
module, the language-service host, tsconfig discovery and the small
utils module, none of which are under src/) are modelled as explicit
parameters or as small definitions marked as modelled from the spec.
-/

set_option maxHeartbeats 1000000

namespace ProgramManager

/-! ### Formatting (formatCode, source lines 86-95) -/

/-- ts.TextSpan: the span of a text change, with start offset and length. -/
structure TextSpan where
  start : Nat
  length : Nat
deriving DecidableEq

/-- ts.TextChange: a formatting edit returned by the language service. -/
structure TextChange where
  span : TextSpan
  newText : String
deriving DecidableEq

/-- JS String.prototype.slice with two arguments (slice(0, e) = take e). -/
def jsSliceTo (s : String) (e : Nat) : String :=
  ⟨s.data.take e⟩

/-- JS String.prototype.slice with one argument (slice(b) = drop b). -/
def jsSliceFrom (s : String) (b : Nat) : String :=
  ⟨s.data.drop b⟩

/-- One iteration of the splice loop in formatCode (source lines 90-92):
result = result.slice(0, start) + newText + result.slice(start + length). -/
def applyChange (result : String) (change : TextChange) : String :=
  let head := jsSliceTo result change.span.start
  let tail := jsSliceFrom result (change.span.start + change.span.length)
  head ++ change.newText ++ tail

/-- formatCode (source lines 86-95): the for-loop runs i from
changes.length - 1 down to 0, so the last change is applied first;
as a fold this is a right fold over the change list. -/
def formatCode (orig : String) (changes : List TextChange) : String :=
  changes.foldr (fun change result => applyChange result change) orig

/-! ### Closure expansion (increaseProjectForReferenceAndImports,
getReferencedOrImportedFiles, source lines 98-136) -/

/-- ts.FileReference: only the filename field is consumed here. -/
structure FileRef where
  filename : String
deriving DecidableEq

/-- Result of ts.preProcessFile: statically declared references and imports. -/
structure PreProcessedFileInfo where
  referencedFiles : List FileRef
  importedFiles : List FileRef
deriving DecidableEq

/-- The external collaborators the closure code calls into.
content models both languageServiceHost.getScriptContent and
fs.readFileSync (addScript stores exactly the bytes read from disk, so
the two agree on every file; the spec assumes all chains are
resolvable, so reads are total). preProcessFile models
ts.preProcessFile applied to a content string. pathResolve and
pathIsRelative are utils.pathResolve / utils.pathIsRelative (repository
code not under src/), kept abstract; dirname is node path.dirname. -/
structure Env where
  content : String → String
  preProcessFile : String → PreProcessedFileInfo
  pathResolve : String → String → String
  pathIsRelative : String → Bool
  dirname : String → String

/-- Modelled from the spec: utils.selectMany (repository code not under
src/) flattens a list of lists, as used on the per-file reference lists. -/
def selectMany (xss : List (List α)) : List α :=
  xss.flatten

/-- The per-file body of getReferencedOrImportedFiles (source lines
121-132): references are resolved against the file's directory as-is;
the imports are filtered to relative ones and resolved after appending the
literal ".ts" to the import string, unconditionally. -/
def fileRefs (env : Env) (file : String) : List String :=
  let preProcessedFileInfo := env.preProcessFile (env.content file)
  let dir := env.dirname file
  (preProcessedFileInfo.referencedFiles.map
      (fun fileReference => env.pathResolve dir fileReference.filename))
    ++ ((preProcessedFileInfo.importedFiles.filter
          (fun fileReference => env.pathIsRelative fileReference.filename)).map
        (fun fileReference => env.pathResolve dir (fileReference.filename ++ ".ts")))

/-- getReferencedOrImportedFiles (source lines 118-136). -/
def getReferencedOrImportedFiles (env : Env) (files : List String) : List String :=
  selectMany (files.map (fun file => fileRefs env file))

/-- The mutable state the closure loop threads: the set of files the
language-service host has scripts for (hasScript) and the project's
file list (projectFile.project.files). -/
structure ProgState where
  hostFiles : List String
  projectFiles : List String
deriving DecidableEq

/-- willNeedMoreAnalysis (source lines 100-108): a file not yet known to
the host is added to the host and to the project file list and reported
as new; a known file changes nothing. -/
def willNeedMoreAnalysis (file : String) (s : ProgState) : Bool × ProgState :=
  if file ∈ s.hostFiles then
    (false, s)
  else
    (true, { hostFiles := s.hostFiles ++ [file],
             projectFiles := s.projectFiles ++ [file] })

/-- JS Array.prototype.filter with the stateful predicate
willNeedMoreAnalysis: elements are visited left to right, the state is
threaded through, and the elements reported new are kept. -/
def filterWillNeed : List String → ProgState → List String × ProgState
  | [], s => ([], s)
  | f :: fs, s =>
    let p := willNeedMoreAnalysis f s
    let q := filterWillNeed fs p.2
    (if p.1 then f :: q.1 else q.1, q.2)

/-- One iteration of the loop body (source lines 110-115): scan every
current project file for references/imports, then filter with
willNeedMoreAnalysis (which grows the state as a side effect). -/
def loopStep (env : Env) (s : ProgState) : List String × ProgState :=
  filterWillNeed (getReferencedOrImportedFiles env s.projectFiles) s

/-- increaseProjectForReferenceAndImports (source lines 98-116), with
explicit fuel standing for the unbounded while loop: run loopStep; if
it produced no new file, stop, otherwise repeat. Fuel 0 is never
reached on a run whose reachable file graph is finite (proved below). -/
def increaseProjectForReferenceAndImports (env : Env) : Nat → ProgState → ProgState
  | 0, s => s
  | n + 1, s =>
    let p := loopStep env s
    if p.1 = [] then p.2 else increaseProjectForReferenceAndImports env n p.2

/-- The loop has reached its fixed point: a scan yields no new file. -/
def IsClosed (env : Env) (s : ProgState) : Prop :=
  (loopStep env s).1 = []

instance (env : Env) (s : ProgState) : Decidable (IsClosed env s) := by
  unfold IsClosed; infer_instance

/-- The reference/import reachability relation: a file is reachable from
the initial file list if it is in the list or is a reference/import of
a reachable file. -/
inductive Reachable (env : Env) (init : List String) : String → Prop
  | base (f : String) : f ∈ init → Reachable env init f
  | step (g f : String) : Reachable env init g → f ∈ fileRefs env g →
      Reachable env init f

/-! ### Lemmas about the stateful filter -/

theorem filterWillNeed_spec (xs : List String) (s : ProgState) :
    (filterWillNeed xs s).2.hostFiles = s.hostFiles ++ (filterWillNeed xs s).1 ∧
    (filterWillNeed xs s).2.projectFiles
      = s.projectFiles ++ (filterWillNeed xs s).1 := by
  induction xs generalizing s with
  | nil => simp [filterWillNeed]
  | cons f fs ih =>
    by_cases h : f ∈ s.hostFiles
    · simpa [filterWillNeed, willNeedMoreAnalysis, h] using ih s
    · have h2 := ih { hostFiles := s.hostFiles ++ [f],
                      projectFiles := s.projectFiles ++ [f] }
      simp only [filterWillNeed, willNeedMoreAnalysis, h, if_neg, if_true,
        ite_false, ite_true] at h2 ⊢
      simp only [h2.1, h2.2, List.append_assoc, List.singleton_append,
        List.cons_append, List.nil_append, and_self]

theorem filterWillNeed_kept_subset (xs : List String) (s : ProgState) :
    ∀ f ∈ (filterWillNeed xs s).1, f ∈ xs := by
  induction xs generalizing s with
  | nil => simp [filterWillNeed]
  | cons g gs ih =>
    intro f hf
    by_cases h : g ∈ s.hostFiles
    · simp only [filterWillNeed, willNeedMoreAnalysis, h, ite_true,
        ite_false] at hf
      exact List.mem_cons_of_mem _ (ih s f hf)
    · simp only [filterWillNeed, willNeedMoreAnalysis, h, ite_true,
        ite_false, List.mem_cons] at hf
      rcases hf with rfl | hf
      · exact List.mem_cons_self _ _
      · exact List.mem_cons_of_mem _ (ih _ f hf)

theorem filterWillNeed_nil_state (xs : List String) (s : ProgState)
    (h : (filterWillNeed xs s).1 = []) : (filterWillNeed xs s).2 = s := by
  have hs := filterWillNeed_spec xs s
  rw [h] at hs
  cases hq : (filterWillNeed xs s).2
  rw [hq] at hs
  simp only [List.append_nil] at hs
  cases s
  simp only [ProgState.mk.injEq]
  exact ⟨hs.1, hs.2⟩

theorem filterWillNeed_nil_mem (xs : List String) (s : ProgState)
    (h : (filterWillNeed xs s).1 = []) : ∀ x ∈ xs, x ∈ s.hostFiles := by
  induction xs generalizing s with
  | nil => simp
  | cons g gs ih =>
    by_cases hg : g ∈ s.hostFiles
    · simp only [filterWillNeed, willNeedMoreAnalysis, hg, ite_true,
        ite_false] at h
      intro x hx
      rcases List.mem_cons.mp hx with rfl | hx
      · exact hg
      · exact ih s h x hx
    · simp [filterWillNeed, willNeedMoreAnalysis, hg] at h

theorem filterWillNeed_nonnil_new (xs : List String) (s : ProgState)
    (h : (filterWillNeed xs s).1 ≠ []) :
    ∃ f, f ∈ (filterWillNeed xs s).1 ∧ f ∉ s.hostFiles := by
  induction xs generalizing s with
  | nil => simp [filterWillNeed] at h
  | cons g gs ih =>
    by_cases hg : g ∈ s.hostFiles
    · simp only [filterWillNeed, willNeedMoreAnalysis, hg, ite_true,
        ite_false] at h ⊢
      exact ih s h
    · refine ⟨g, ?_, hg⟩
      simp [filterWillNeed, willNeedMoreAnalysis, hg]

theorem filterWillNeed_lockstep (xs : List String) (s : ProgState)
    (h : s.hostFiles = s.projectFiles) :
    (filterWillNeed xs s).2.hostFiles = (filterWillNeed xs s).2.projectFiles := by
  have hs := filterWillNeed_spec xs s
  rw [hs.1, hs.2, h]

/-! ### Lemmas about the closure loop -/

theorem mem_getReferencedOrImportedFiles (env : Env) (l : List String)
    (x : String) :
    x ∈ getReferencedOrImportedFiles env l ↔ ∃ g ∈ l, x ∈ fileRefs env g := by
  simp only [getReferencedOrImportedFiles, selectMany, List.mem_flatten,
    List.mem_map]
  constructor
  · rintro ⟨a, ⟨g, hg, rfl⟩, hx⟩
    exact ⟨g, hg, hx⟩
  · rintro ⟨g, hg, hx⟩
    exact ⟨fileRefs env g, ⟨g, hg, rfl⟩, hx⟩

theorem loopStep_spec (env : Env) (s : ProgState) :
    (loopStep env s).2.hostFiles = s.hostFiles ++ (loopStep env s).1 ∧
    (loopStep env s).2.projectFiles = s.projectFiles ++ (loopStep env s).1 :=
  filterWillNeed_spec _ s

theorem loopStep_kept_subset (env : Env) (s : ProgState) :
    ∀ f ∈ (loopStep env s).1,
      f ∈ getReferencedOrImportedFiles env s.projectFiles :=
  filterWillNeed_kept_subset _ s

theorem loopStep_nil_state (env : Env) (s : ProgState)
    (h : (loopStep env s).1 = []) : (loopStep env s).2 = s :=
  filterWillNeed_nil_state _ s h

theorem loopStep_nil_mem (env : Env) (s : ProgState)
    (h : (loopStep env s).1 = []) :
    ∀ x ∈ getReferencedOrImportedFiles env s.projectFiles, x ∈ s.hostFiles :=
  filterWillNeed_nil_mem _ s h

theorem loopStep_nonnil_new (env : Env) (s : ProgState)
    (h : (loopStep env s).1 ≠ []) :
    ∃ f, f ∈ (loopStep env s).1 ∧ f ∉ s.hostFiles :=
  filterWillNeed_nonnil_new _ s h

theorem loopStep_lockstep (env : Env) (s : ProgState)
    (h : s.hostFiles = s.projectFiles) :
    (loopStep env s).2.hostFiles = (loopStep env s).2.projectFiles :=
  filterWillNeed_lockstep _ s h

theorem loopStep_mono (env : Env) (s : ProgState) (f : String)
    (h : f ∈ s.projectFiles) : f ∈ (loopStep env s).2.projectFiles := by
  rw [(loopStep_spec env s).2]
  exact List.mem_append_left _ h

theorem increase_mono (env : Env) (n : Nat) (s : ProgState) (f : String)
    (h : f ∈ s.projectFiles) :
    f ∈ (increaseProjectForReferenceAndImports env n s).projectFiles := by
  induction n generalizing s with
  | zero => exact h
  | succ n ih =>
    simp only [increaseProjectForReferenceAndImports]
    by_cases hc : (loopStep env s).1 = []
    · rw [if_pos hc]
      exact loopStep_mono env s f h
    · rw [if_neg hc]
      exact ih _ (loopStep_mono env s f h)

theorem increase_succ_of_nil (env : Env) (k : Nat) (s : ProgState)
    (hc : (loopStep env s).1 = []) :
    increaseProjectForReferenceAndImports env (k + 1) s = s := by
  simp only [increaseProjectForReferenceAndImports]
  rw [if_pos hc, loopStep_nil_state env s hc]

theorem increase_succ_of_nonnil (env : Env) (k : Nat) (s : ProgState)
    (hc : (loopStep env s).1 ≠ []) :
    increaseProjectForReferenceAndImports env (k + 1) s
      = increaseProjectForReferenceAndImports env k (loopStep env s).2 := by
  simp only [increaseProjectForReferenceAndImports]
  rw [if_neg hc]

theorem increase_of_isClosed (env : Env) (n : Nat) (s : ProgState)
    (h : IsClosed env s) : increaseProjectForReferenceAndImports env n s = s := by
  induction n with
  | zero => rfl
  | succ n _ => exact increase_succ_of_nil env n s h

theorem increase_add_of_isClosed (env : Env) (n m : Nat) (s : ProgState)
    (h : IsClosed env (increaseProjectForReferenceAndImports env n s)) :
    increaseProjectForReferenceAndImports env (n + m) s
      = increaseProjectForReferenceAndImports env n s := by
  induction n generalizing s with
  | zero =>
    simpa using increase_of_isClosed env m s h
  | succ n ih =>
    have hadd : n + 1 + m = (n + m) + 1 := by omega
    rw [hadd]
    by_cases hc : (loopStep env s).1 = []
    · rw [increase_succ_of_nil env (n + m) s hc,
        increase_succ_of_nil env n s hc]
    · rw [increase_succ_of_nonnil env (n + m) s hc,
        increase_succ_of_nonnil env n s hc]
      rw [increase_succ_of_nonnil env n s hc] at h
      exact ih _ h

theorem lockstep_increase (env : Env) (n : Nat) (s : ProgState)
    (h : s.hostFiles = s.projectFiles) :
    (increaseProjectForReferenceAndImports env n s).hostFiles
      = (increaseProjectForReferenceAndImports env n s).projectFiles := by
  induction n generalizing s with
  | zero => exact h
  | succ n ih =>
    simp only [increaseProjectForReferenceAndImports]
    by_cases hc : (loopStep env s).1 = []
    · rw [if_pos hc]
      exact filterWillNeed_lockstep _ s h
    · rw [if_neg hc]
      exact ih _ (filterWillNeed_lockstep _ s h)

theorem loopStep_sound (env : Env) (init : List String) (s : ProgState)
    (hs : ∀ f ∈ s.projectFiles, Reachable env init f) :
    ∀ f ∈ (loopStep env s).2.projectFiles, Reachable env init f := by
  intro f hf
  rw [(loopStep_spec env s).2] at hf
  rcases List.mem_append.mp hf with hf | hf
  · exact hs f hf
  · have hx := loopStep_kept_subset env s f hf
    rcases (mem_getReferencedOrImportedFiles env _ f).mp hx with ⟨g, hg, hgf⟩
    exact Reachable.step g f (hs g hg) hgf

theorem increase_sound (env : Env) (init : List String) (n : Nat)
    (s : ProgState) (hs : ∀ f ∈ s.projectFiles, Reachable env init f) :
    ∀ f ∈ (increaseProjectForReferenceAndImports env n s).projectFiles,
      Reachable env init f := by
  induction n generalizing s with
  | zero => exact hs
  | succ n ih =>
    simp only [increaseProjectForReferenceAndImports]
    by_cases hc : (loopStep env s).1 = []
    · rw [if_pos hc]
      exact loopStep_sound env init s hs
    · rw [if_neg hc]
      exact ih _ (loopStep_sound env init s hs)

theorem isClosed_complete (env : Env) (init : List String) (t : ProgState)
    (hclosed : IsClosed env t) (hlock : t.hostFiles = t.projectFiles)
    (hinit : ∀ f ∈ init, f ∈ t.projectFiles) :
    ∀ f, Reachable env init f → f ∈ t.projectFiles := by
  intro f hf
  induction hf with
  | base f hf => exact hinit f hf
  | step g f _ hgf ih =>
    have hx : f ∈ getReferencedOrImportedFiles env t.projectFiles :=
      (mem_getReferencedOrImportedFiles env _ f).mpr ⟨g, ih, hgf⟩
    have := filterWillNeed_nil_mem _ t hclosed f hx
    rwa [hlock] at this

/-! ### Termination of the closure loop -/

/-- The number of files of the finite universe U the host does not know
yet: the measure that strictly decreases at every continuing iteration. -/
def newCount (U : List String) (s : ProgState) : Nat :=
  (U.filter (fun f => decide (f ∉ s.hostFiles))).length

theorem newCount_lt (U : List String) (s s' : ProgState)
    (hsub : ∀ f ∈ s.hostFiles, f ∈ s'.hostFiles) (f : String) (hfU : f ∈ U)
    (hfold : f ∉ s.hostFiles) (hfnew : f ∈ s'.hostFiles) :
    newCount U s' < newCount U s := by
  have himp : ∀ a, (fun g => decide (g ∉ s'.hostFiles)) a = true →
      (fun g => decide (g ∉ s.hostFiles)) a = true := by
    intro a ha
    simp only [decide_eq_true_eq] at ha ⊢
    exact fun hmem => ha (hsub a hmem)
  have hsl := List.monotone_filter_right U himp
  have hle := hsl.length_le
  rcases Nat.eq_or_lt_of_le hle with heq | hlt
  · exfalso
    have heqL := hsl.eq_of_length heq
    have hf1 : f ∈ U.filter (fun g => decide (g ∉ s.hostFiles)) := by
      simp only [List.mem_filter, decide_eq_true_eq]
      exact ⟨hfU, hfold⟩
    rw [← heqL] at hf1
    have hf2 := (List.mem_filter.mp hf1).2
    simp only [decide_eq_true_eq] at hf2
    exact hf2 hfnew
  · exact hlt

theorem loopStep_kept_in_univ (env : Env) (U : List String) (s : ProgState)
    (hlock : s.hostFiles = s.projectFiles)
    (hU : ∀ f ∈ s.hostFiles, f ∈ U)
    (hclosedU : ∀ f ∈ U, ∀ g ∈ fileRefs env f, g ∈ U) :
    ∀ f ∈ (loopStep env s).1, f ∈ U := by
  intro f hf
  have hx := loopStep_kept_subset env s f hf
  rcases (mem_getReferencedOrImportedFiles env _ f).mp hx with ⟨g, hg, hgf⟩
  have hgh : g ∈ s.hostFiles := by rw [hlock]; exact hg
  exact hclosedU g (hU g hgh) f hgf

theorem loopStep_univ_inv (env : Env) (U : List String) (s : ProgState)
    (hlock : s.hostFiles = s.projectFiles)
    (hU : ∀ f ∈ s.hostFiles, f ∈ U)
    (hclosedU : ∀ f ∈ U, ∀ g ∈ fileRefs env f, g ∈ U) :
    ∀ f ∈ (loopStep env s).2.hostFiles, f ∈ U := by
  intro f hf
  rw [(loopStep_spec env s).1] at hf
  rcases List.mem_append.mp hf with hf | hf
  · exact hU f hf
  · exact loopStep_kept_in_univ env U s hlock hU hclosedU f hf

theorem exists_isClosed_of_measure (env : Env) (U : List String) :
    ∀ (k : Nat) (s : ProgState),
      s.hostFiles = s.projectFiles →
      (∀ f ∈ s.hostFiles, f ∈ U) →
      (∀ f ∈ U, ∀ g ∈ fileRefs env f, g ∈ U) →
      newCount U s ≤ k →
      ∃ n, IsClosed env (increaseProjectForReferenceAndImports env n s) := by
  intro k
  induction k with
  | zero =>
    intro s hlock hU hclosedU hk
    by_cases hc : (loopStep env s).1 = []
    · exact ⟨0, hc⟩
    · exfalso
      rcases loopStep_nonnil_new env s hc with ⟨f, hfkept, hfold⟩
      have hfnew : f ∈ (loopStep env s).2.hostFiles := by
        rw [(loopStep_spec env s).1]
        exact List.mem_append_right _ hfkept
      have hsub : ∀ g ∈ s.hostFiles, g ∈ (loopStep env s).2.hostFiles := by
        intro g hg
        rw [(loopStep_spec env s).1]
        exact List.mem_append_left _ hg
      have hfU := loopStep_kept_in_univ env U s hlock hU hclosedU f hfkept
      have := newCount_lt U s (loopStep env s).2 hsub f hfU hfold hfnew
      omega
  | succ k ih =>
    intro s hlock hU hclosedU hk
    by_cases hc : (loopStep env s).1 = []
    · exact ⟨0, hc⟩
    · rcases loopStep_nonnil_new env s hc with ⟨f, hfkept, hfold⟩
      have hfnew : f ∈ (loopStep env s).2.hostFiles := by
        rw [(loopStep_spec env s).1]
        exact List.mem_append_right _ hfkept
      have hsub : ∀ g ∈ s.hostFiles, g ∈ (loopStep env s).2.hostFiles := by
        intro g hg
        rw [(loopStep_spec env s).1]
        exact List.mem_append_left _ hg
      have hfU := loopStep_kept_in_univ env U s hlock hU hclosedU f hfkept
      have hlt := newCount_lt U s (loopStep env s).2 hsub f hfU hfold hfnew
      rcases ih (loopStep env s).2 (loopStep_lockstep env s hlock)
          (loopStep_univ_inv env U s hlock hU hclosedU) hclosedU
          (by omega) with ⟨n, hn⟩
      refine ⟨n + 1, ?_⟩
      rw [increase_succ_of_nonnil env n s hc]
      exact hn

theorem exists_fixpoint (env : Env) (U : List String) (s : ProgState)
    (hlock : s.hostFiles = s.projectFiles)
    (hU : ∀ f ∈ s.hostFiles, f ∈ U)
    (hclosedU : ∀ f ∈ U, ∀ g ∈ fileRefs env f, g ∈ U) :
    ∃ n, IsClosed env (increaseProjectForReferenceAndImports env n s) :=
  exists_isClosed_of_measure env U (newCount U s) s hlock hU hclosedU
    (Nat.le_refl _)

/-! ### Claim theorems for the closure loop -/

/-- C1: for a project whose reference/import graph is finite (a universe
U contains the initial files and is closed under the reference/import
edges; in this model every read is resolvable), the fixed-point
expansion performed by increaseProjectForReferenceAndImports reaches a
closed state whose project file set equals the transitive closure of
the reference/import relation from the initial file set: every
transitively reachable file is included and no other file is added. -/
theorem C1_closure_equals_transitive_closure (env : Env) (U : List String)
    (s : ProgState) (hlock : s.hostFiles = s.projectFiles)
    (hU : ∀ f ∈ s.projectFiles, f ∈ U)
    (hclosedU : ∀ f ∈ U, ∀ g ∈ fileRefs env f, g ∈ U) :
    ∃ n, IsClosed env (increaseProjectForReferenceAndImports env n s) ∧
      ∀ f, f ∈ (increaseProjectForReferenceAndImports env n s).projectFiles
        ↔ Reachable env s.projectFiles f := by
  have hUh : ∀ f ∈ s.hostFiles, f ∈ U := by
    intro f hf
    exact hU f (by rw [← hlock]; exact hf)
  rcases exists_fixpoint env U s hlock hUh hclosedU with ⟨n, hn⟩
  refine ⟨n, hn, fun f => ⟨?_, ?_⟩⟩
  · intro hf
    exact increase_sound env s.projectFiles n s
      (fun g hg => Reachable.base g hg) f hf
  · intro hf
    exact isClosed_complete env s.projectFiles
      (increaseProjectForReferenceAndImports env n s) hn
      (lockstep_increase env n s hlock)
      (fun g hg => increase_mono env n s g hg) f hf

/-- C2: on every finite reference/import graph, cyclic ones included,
the closure-expansion loop terminates: every iteration whose scan
yields a new file strictly grows the host's file set, and once enough
iterations have run the scan yields zero new files, after which more
fuel does not change the state (the while loop exits). -/
theorem C2_closure_loop_terminates (env : Env) (U : List String)
    (s : ProgState) (hlock : s.hostFiles = s.projectFiles)
    (hU : ∀ f ∈ s.projectFiles, f ∈ U)
    (hclosedU : ∀ f ∈ U, ∀ g ∈ fileRefs env f, g ∈ U) :
    (∀ t : ProgState, (loopStep env t).1 ≠ [] →
      t.hostFiles.length < (loopStep env t).2.hostFiles.length) ∧
    ∃ n, IsClosed env (increaseProjectForReferenceAndImports env n s) ∧
      ∀ m, increaseProjectForReferenceAndImports env (n + m) s
        = increaseProjectForReferenceAndImports env n s := by
  constructor
  · intro t ht
    rw [(loopStep_spec env t).1, List.length_append]
    have hpos : 0 < (loopStep env t).1.length := List.length_pos.mpr ht
    omega
  · have hUh : ∀ f ∈ s.hostFiles, f ∈ U := by
      intro f hf
      exact hU f (by rw [← hlock]; exact hf)
    rcases exists_fixpoint env U s hlock hUh hclosedU with ⟨n, hn⟩
    exact ⟨n, hn, fun m => increase_add_of_isClosed env n m s hn⟩

/-- C8: adding an already-known file is a no-op: willNeedMoreAnalysis
returns false and leaves the state untouched for any file the host
already has a script for, and running the closure expansion on an
already-closed file set changes nothing at all. -/
theorem C8_expansion_idempotent :
    (∀ (s : ProgState) (f : String), f ∈ s.hostFiles →
      willNeedMoreAnalysis f s = (false, s)) ∧
    (∀ (env : Env) (n : Nat) (s : ProgState), IsClosed env s →
      increaseProjectForReferenceAndImports env n s = s) := by
  constructor
  · intro s f hf
    simp [willNeedMoreAnalysis, hf]
  · intro env n s h
    exact increase_of_isClosed env n s h

/-! ### Concrete witness data for the closure claims -/

/-- A tiny concrete environment: file a.ts references b.ts, b.ts
references nothing; contents are the file names themselves and path
resolution is the identity on the reference string. -/
def envAB : Env :=
  { content := fun f => f
    preProcessFile := fun c =>
      if c = "a.ts" then
        { referencedFiles := [{ filename := "b.ts" }], importedFiles := [] }
      else { referencedFiles := [], importedFiles := [] }
    pathResolve := fun _ r => r
    pathIsRelative := fun _ => true
    dirname := fun _ => "." }

/-- Initial state: the project starts from a.ts alone. -/
def stateA : ProgState := { hostFiles := ["a.ts"], projectFiles := ["a.ts"] }

/-- The finite universe containing every reachable file of envAB. -/
def univAB : List String := ["a.ts", "b.ts"]

/-- Witness for C1 at the concrete one-edge project. -/
theorem C1_witness :
    ∃ n, IsClosed envAB (increaseProjectForReferenceAndImports envAB n stateA) ∧
      ∀ f, f ∈ (increaseProjectForReferenceAndImports envAB n stateA).projectFiles
        ↔ Reachable envAB stateA.projectFiles f :=
  C1_closure_equals_transitive_closure envAB univAB stateA (by decide)
    (by decide) (by decide)

/-- Witness for C2 at the concrete one-edge project. -/
theorem C2_witness :
    (∀ t : ProgState, (loopStep envAB t).1 ≠ [] →
      t.hostFiles.length < (loopStep envAB t).2.hostFiles.length) ∧
    ∃ n, IsClosed envAB (increaseProjectForReferenceAndImports envAB n stateA) ∧
      ∀ m, increaseProjectForReferenceAndImports envAB (n + m) stateA
        = increaseProjectForReferenceAndImports envAB n stateA :=
  C2_closure_loop_terminates envAB univAB stateA (by decide) (by decide)
    (by decide)

/-- An environment with no reference/import edges at all, for the
idempotence witness. -/
def envEmpty : Env :=
  { content := fun f => f
    preProcessFile := fun _ => { referencedFiles := [], importedFiles := [] }
    pathResolve := fun _ r => r
    pathIsRelative := fun _ => true
    dirname := fun _ => "." }

/-- Witness for C8: a known file is a no-op and an already-closed state
is left unchanged by three more rounds of expansion. -/
theorem C8_witness :
    willNeedMoreAnalysis "a.ts" stateA = (false, stateA) ∧
    increaseProjectForReferenceAndImports envEmpty 3 stateA = stateA :=
  ⟨C8_expansion_idempotent.1 stateA "a.ts" (by decide),
   C8_expansion_idempotent.2 envEmpty 3 stateA (by decide)⟩

/-! ### Claim C3: formatCode -/

/-- C3: formatCode applies the edit list by splicing from the last edit
to the first (the head edit of the list is applied last); applying an
empty edit list returns the original text unchanged, and applying to
"abcdef" an edit replacing span [2,4) with "X" yields "abXef". -/
theorem C3_formatCode_splices_last_to_first :
    (∀ orig : String, formatCode orig [] = orig) ∧
    (∀ (orig : String) (c : TextChange) (cs : List TextChange),
      formatCode orig (c :: cs) = applyChange (formatCode orig cs) c) ∧
    formatCode "abcdef"
      [{ span := { start := 2, length := 2 }, newText := "X" }] = "abXef" :=
  ⟨fun _ => rfl, fun _ _ _ => rfl, by decide⟩

/-! ### Claim C7: extension suffixing of imports -/

/-- Modelled from the spec: node path.dirname — the directory part of a
path, i.e. everything before the last slash. -/
def dirnameFn (p : String) : String :=
  ⟨((p.data.reverse.dropWhile (fun c => c != '/')).drop 1).reverse⟩

/-- Modelled from the spec: utils.pathIsRelative (repository code not
under src/) — a path is relative when it starts with a dot segment. -/
def startsWithDot (s : String) : Bool :=
  match s.data with
  | c :: _ => c == '.'
  | [] => false

/-- Environment in which /p/a.ts declares a single relative import that
already carries the .ts extension. Modelled from the spec:
utils.pathResolve (repository code not under src/) is instantiated as
plain path joining against the source file's directory. -/
def envExt : Env :=
  { content := fun f => f
    preProcessFile := fun c =>
      if c = "/p/a.ts" then
        { referencedFiles := [], importedFiles := [{ filename := "./b.ts" }] }
      else { referencedFiles := [], importedFiles := [] }
    pathResolve := fun d r => d ++ "/" ++ r
    pathIsRelative := startsWithDot
    dirname := dirnameFn }

/-- C7 counterexample: the import "./b.ts" already carries an extension,
yet the closure scan suffixes it again — the only discovered path is
the resolution of "./b.ts.ts", and the unsuffixed resolution of
"./b.ts" is not discovered at all. -/
theorem C7_counterexample :
    fileRefs envExt "/p/a.ts" = ["/p/./b.ts.ts"] ∧
    "/p/./b.ts" ∉ fileRefs envExt "/p/a.ts" := by
  decide

/-- C7 amended: every discovered reference is resolved against the
source file's directory unchanged, and every relative import is
resolved after unconditionally appending the literal ".ts" to the
argument string, whether or not it already carries an extension. -/
theorem C7_amended_imports_always_suffixed :
    (∀ (env : Env) (f : String) (r : FileRef),
      r ∈ (env.preProcessFile (env.content f)).importedFiles →
      env.pathIsRelative r.filename = true →
      env.pathResolve (env.dirname f) (r.filename ++ ".ts") ∈ fileRefs env f) ∧
    (∀ (env : Env) (f : String) (r : FileRef),
      r ∈ (env.preProcessFile (env.content f)).referencedFiles →
      env.pathResolve (env.dirname f) r.filename ∈ fileRefs env f) := by
  constructor
  · intro env f r hr hrel
    simp only [fileRefs, List.mem_append, List.mem_map]
    right
    exact ⟨r, List.mem_filter.mpr ⟨hr, hrel⟩, rfl⟩
  · intro env f r hr
    simp only [fileRefs, List.mem_append, List.mem_map]
    left
    exact ⟨r, hr, rfl⟩

/-- Witness for the amended C7: the already-suffixed import of envExt
is resolved with a second ".ts" appended. -/
theorem C7_witness :
    envExt.pathResolve (envExt.dirname "/p/a.ts") ("./b.ts" ++ ".ts")
      ∈ fileRefs envExt "/p/a.ts" :=
  C7_amended_imports_always_suffixed.1 envExt "/p/a.ts" { filename := "./b.ts" }
    (by decide) (by decide)

/-! ### Claim C4: program cache (programs, getOrCreateProgram,
source lines 139-157) -/

/-- The process-wide cache: programs maps a project root directory to
the Program built for it; Program instances are identified by the
order in which they were constructed (nextId is the identity the next
new Program would receive). -/
structure CacheSt where
  programs : List (String × Nat)
  nextId : Nat
deriving DecidableEq

/-- getOrCreateProgram (source lines 150-157). projOf models
getOrCreateProject (source lines 141-148) composed with
projectFileDirectory: tsconfig discovery is an external collaborator
and its single-file fallback makes it total. -/
def getOrCreateProgram (projOf : String → String) (filePath : String)
    (st : CacheSt) : Nat × CacheSt :=
  let dir := projOf filePath
  match st.programs.lookup dir with
  | some p => (p, st)
  | none =>
    (st.nextId,
     { programs := st.programs ++ [(dir, st.nextId)],
       nextId := st.nextId + 1 })

/-- At most one Program per project root: the cache keys are distinct. -/
def UniqueRoots (st : CacheSt) : Prop :=
  (st.programs.map Prod.fst).Nodup

instance (st : CacheSt) : Decidable (UniqueRoots st) := by
  unfold UniqueRoots; infer_instance

theorem lookup_append_none {β : Type} (l l' : List (String × β)) (a : String)
    (h : l.lookup a = none) : (l ++ l').lookup a = l'.lookup a := by
  induction l with
  | nil => rfl
  | cons p ps ih =>
    rcases p with ⟨k, v⟩
    cases hak : (a == k)
    · simp only [List.cons_append, List.lookup, hak] at h ⊢
      exact ih h
    · simp only [List.lookup, hak] at h
      exact Option.noConfusion h

theorem lookup_none_not_mem {β : Type} (l : List (String × β)) (a : String)
    (h : l.lookup a = none) : a ∉ l.map Prod.fst := by
  induction l with
  | nil => simp
  | cons p ps ih =>
    rcases p with ⟨k, v⟩
    cases hak : (a == k)
    · simp only [List.lookup, hak] at h
      simp only [List.map_cons, List.mem_cons]
      rintro (rfl | hmem)
      · simp at hak
      · exact ih h hmem
    · simp only [List.lookup, hak] at h
      exact Option.noConfusion h

/-- C4: two calls to getOrCreateProgram for file paths that
resolve to the same project root return the identical cached Program
instance, and every call preserves the invariant that at most one
Program exists per distinct project root. -/
theorem C4_one_program_per_root (projOf : String → String) (f1 f2 : String)
    (st : CacheSt) (hsame : projOf f1 = projOf f2) (st' : CacheSt)
    (f : String) (hu : UniqueRoots st') :
    ((getOrCreateProgram projOf f2 (getOrCreateProgram projOf f1 st).2).1
      = (getOrCreateProgram projOf f1 st).1) ∧
    UniqueRoots (getOrCreateProgram projOf f st').2 := by
  constructor
  · simp only [getOrCreateProgram, ← hsame]
    cases h : st.programs.lookup (projOf f1) with
    | some p => simp [h]
    | none =>
      simp only [h]
      rw [lookup_append_none _ _ _ h]
      simp [List.lookup]
  · simp only [getOrCreateProgram]
    cases h : st'.programs.lookup (projOf f) with
    | some p => exact hu
    | none =>
      simp only [UniqueRoots, List.map_append, List.map_cons,
        List.map_nil] at hu ⊢
      rw [List.nodup_append]
      refine ⟨hu, List.nodup_singleton _, ?_⟩
      intro a ha hb
      simp only [List.mem_singleton] at hb
      subst hb
      exact lookup_none_not_mem _ _ h ha

/-- A project resolver sending every file to the same root, and the
empty cache, for the C4 witness. -/
def projRootConst : String → String := fun _ => "/proj"

/-- The empty program cache. -/
def emptyCache : CacheSt := { programs := [], nextId := 0 }

/-- Witness for C4: under the constant resolver the second call returns
the Program instance the first call created, and uniqueness of roots
is preserved from the empty cache. -/
theorem C4_witness :
    ((getOrCreateProgram projRootConst "y.ts"
        (getOrCreateProgram projRootConst "x.ts" emptyCache).2).1
      = (getOrCreateProgram projRootConst "x.ts" emptyCache).1) ∧
    UniqueRoots (getOrCreateProgram projRootConst "z.ts" emptyCache).2 :=
  C4_one_program_per_root projRootConst "x.ts" "y.ts" emptyCache rfl
    emptyCache "z.ts" (by decide)

/-! ### Diagnostics retrieval (getErrorsForFile,
getErrorsForFileFiltered, source lines 164-193) -/

/-- ts.Diagnostic as consumed here: the originating file's name
(diagnostic.file.filename), start offset, length and message. -/
structure Diagnostic where
  fileName : String
  start : Nat
  length : Nat
  messageText : String
deriving DecidableEq

/-- languageServiceHost.Position (line and column). -/
structure Position where
  line : Nat
  col : Nat
deriving DecidableEq

/-- TSError (source lines 164-170). -/
structure TSError where
  filePath : String
  startPos : Position
  endPos : Position
  message : String
  preview : String
deriving DecidableEq

/-- The language service and host operations getErrorsForFile consumes.
syntacticDiagnostics and semanticDiagnostics model
languageService.getSyntacticDiagnostics / getSemanticDiagnostics;
getScriptContent and getPositionFromIndex model the corresponding
languageServiceHost operations (repository code not under src/,
modelled from the spec as host-side accessors of the queried file's
text). -/
structure LangService where
  syntacticDiagnostics : String → List Diagnostic
  semanticDiagnostics : String → List Diagnostic
  getScriptContent : String → String
  getPositionFromIndex : String → Nat → Position

/-- JS String.prototype.substr(start, length). -/
def substr (s : String) (start len : Nat) : String :=
  ⟨(s.data.drop start).take len⟩

/-- The error-shape translation in getErrorsForFile (source lines
179-185): every field of the produced record is computed against the
queried filePath, while the reported filePath comes from the
diagnostic's own originating file. -/
def toTSError (ls : LangService) (filePath : String) (diagnostic : Diagnostic) :
    TSError :=
  { filePath := diagnostic.fileName
    startPos := ls.getPositionFromIndex filePath diagnostic.start
    endPos := ls.getPositionFromIndex filePath
      (diagnostic.length + diagnostic.start)
    message := diagnostic.messageText
    preview := substr (ls.getScriptContent filePath) diagnostic.start
      diagnostic.length }

/-- getErrorsForFile (source lines 172-186): syntactic diagnostics are
requested first; semantic diagnostics are requested only when the
syntactic list is empty. -/
def getErrorsForFile (ls : LangService) (filePath : String) : List TSError :=
  let diagnostics := ls.syntacticDiagnostics filePath
  let diagnostics :=
    if diagnostics.length = 0 then ls.semanticDiagnostics filePath
    else diagnostics
  diagnostics.map (toTSError ls filePath)

/-- Modelled from the spec: node path.basename — the last path segment. -/
def basename (p : String) : String :=
  ⟨(p.data.reverse.takeWhile (fun c => c != '/')).reverse⟩

/-- getErrorsForFileFiltered (source lines 188-193): keep only errors
whose originating file has the same basename as the queried file. -/
def getErrorsForFileFiltered (ls : LangService) (filePath : String) :
    List TSError :=
  let fileName := basename filePath
  (getErrorsForFile ls filePath).filter
    (fun error => basename error.filePath == fileName)

/-! ### Claims C5, C6 and C10: diagnostics -/

/-- A syntax error of /p/b.ts, attributed to /p/b.ts's own path. -/
def diagB : Diagnostic :=
  { fileName := "/p/b.ts", start := 1, length := 2, messageText := "msg" }

/-- Language service for the scenario of C6/C10: querying /p/a.ts (which
depends on /p/b.ts) yields one syntactic diagnostic attributed to
/p/b.ts; the two files have different text. -/
def lsSyn : LangService :=
  { syntacticDiagnostics := fun _ => [diagB]
    semanticDiagnostics := fun _ => []
    getScriptContent := fun p => if p = "/p/a.ts" then "AAAA" else "BBBB"
    getPositionFromIndex := fun _ i => { line := 0, col := i } }

/-- A replacement semantic supplier returning nothing. -/
def semNone : String → List Diagnostic := fun _ => []

/-- C5: syntactic diagnostics are requested first and semantic ones only
when the syntactic list is empty: when at least one syntactic
diagnostic exists the returned list is exactly the translated
syntactic list, and the semantic supplier is never consulted — the
result is unchanged under any replacement of it. -/
theorem C5_semantic_skipped_on_syntax_error (ls : LangService)
    (sem' : String → List Diagnostic) (f : String)
    (h : (ls.syntacticDiagnostics f).length ≠ 0) :
    getErrorsForFile ls f
      = (ls.syntacticDiagnostics f).map (toTSError ls f) ∧
    getErrorsForFile { ls with semanticDiagnostics := sem' } f
      = getErrorsForFile ls f := by
  constructor
  · simp [getErrorsForFile, h]
  · simp [getErrorsForFile, toTSError, h]

/-- Witness for C5 at the concrete service with one syntactic error. -/
theorem C5_witness :
    (getErrorsForFile lsSyn "/p/a.ts"
      = (lsSyn.syntacticDiagnostics "/p/a.ts").map (toTSError lsSyn "/p/a.ts")) ∧
    getErrorsForFile { lsSyn with semanticDiagnostics := semNone } "/p/a.ts"
      = getErrorsForFile lsSyn "/p/a.ts" :=
  C5_semantic_skipped_on_syntax_error lsSyn semNone "/p/a.ts" (by decide)

/-- C6: the filtered variant keeps only errors whose originating file
has the queried file's basename, so when every returned error comes
from another file the filtered list is empty; concretely, for /p/a.ts
that imports /p/b.ts whose syntax error is attributed to /p/b.ts, the
filtered list is empty while the unfiltered list is not. -/
theorem C6_filtered_excludes_cross_file :
    (∀ (ls : LangService) (f : String),
      (∀ e ∈ getErrorsForFile ls f, basename e.filePath ≠ basename f) →
      getErrorsForFileFiltered ls f = []) ∧
    (getErrorsForFileFiltered lsSyn "/p/a.ts" = [] ∧
     getErrorsForFile lsSyn "/p/a.ts" ≠ []) := by
  constructor
  · intro ls f h
    simp only [getErrorsForFileFiltered]
    rw [List.filter_eq_nil_iff]
    intro e he
    simp only [beq_iff_eq]
    exact h e he
  · constructor
    · decide
    · decide

/-- Witness for C6: the cross-file-only error list is filtered to
nothing for the queried file. -/
theorem C6_witness : getErrorsForFileFiltered lsSyn "/p/a.ts" = [] :=
  C6_filtered_excludes_cross_file.1 lsSyn "/p/a.ts" (by decide)

/-- C10: startPos, endPos and preview are always computed from the
queried file: the result depends only on the diagnostic lists and on
the queried file's own content and index-to-position mapping, never on
the originating file's text; concretely a diagnostic attributed to
/p/b.ts but queried through /p/a.ts previews /p/a.ts's text "AA",
which differs from /p/b.ts's text "BB" on the same span. -/
theorem C10_positions_from_queried_file (ls ls' : LangService) (f : String)
    (hsyn : ls.syntacticDiagnostics f = ls'.syntacticDiagnostics f)
    (hsem : ls.semanticDiagnostics f = ls'.semanticDiagnostics f)
    (hcontent : ls.getScriptContent f = ls'.getScriptContent f)
    (hpos : ls.getPositionFromIndex f = ls'.getPositionFromIndex f) :
    getErrorsForFile ls f = getErrorsForFile ls' f ∧
    (getErrorsForFile lsSyn "/p/a.ts"
        = [{ filePath := "/p/b.ts", startPos := { line := 0, col := 1 },
             endPos := { line := 0, col := 3 }, message := "msg",
             preview := "AA" }] ∧
     substr (lsSyn.getScriptContent "/p/b.ts") 1 2 = "BB") := by
  constructor
  · have htos : toTSError ls f = toTSError ls' f := by
      funext d
      simp only [toTSError, hcontent, hpos]
    simp only [getErrorsForFile, hsyn, hsem, htos]
  · constructor
    · decide
    · decide

/-- The same service with the originating file /p/b.ts's text replaced:
only the queried file's content matters. -/
def lsSynB : LangService :=
  { lsSyn with getScriptContent :=
      fun p => if p = "/p/b.ts" then "CCCC" else lsSyn.getScriptContent p }

/-- Witness for C10: changing the originating file's text does not
change the errors returned for the queried file. -/
theorem C10_witness :
    getErrorsForFile lsSyn "/p/a.ts" = getErrorsForFile lsSynB "/p/a.ts" :=
  (C10_positions_from_queried_file lsSyn lsSynB "/p/a.ts" rfl rfl
    (by decide) rfl).1

/-! ### Claim C9: emitFile (source lines 32-69) -/

/-- One output artifact of the compiler service (name and text). -/
structure OutputFile where
  name : String
  text : String
deriving DecidableEq

/-- The part of ts.EmitOutput consumed here. -/
structure EmitOutputRaw where
  outputFiles : List OutputFile
  emitOutputStatus : Nat

/-- ts.EmitReturnStatus.Succeeded. -/
def emitReturnStatusSucceeded : Nat := 0

/-- The compiler service call emitFile makes. -/
structure EmitSvc where
  getEmitOutput : String → EmitOutputRaw

/-- EmitOutput (source lines 159-162). -/
structure EmitOutput where
  outputFiles : List String
  success : Bool
deriving DecidableEq

/-- Modelled from the spec: node path.extname — the final extension of
the last path segment (leading-dot files are not distinguished; the
code only compares the result against ".d.ts"). -/
def extname (p : String) : String :=
  let revb := (basename p).data.reverse
  if revb.contains '.' then
    ⟨'.' :: (revb.takeWhile (fun c => c != '.')).reverse⟩
  else ""

/-- The fs.writeFileSync loop over output.outputFiles (source lines
56-58): artifacts are written in order; a failing write throws and
aborts the loop, so the performed writes are the longest writable
prefix, and the flag records whether the loop ran to completion. -/
def writeAll (canWrite : String → Bool) :
    List OutputFile → List (String × String) × Bool
  | [] => ([], true)
  | o :: os =>
    if canWrite o.name then
      let r := writeAll canWrite os
      ((o.name, o.text) :: r.1, r.2)
    else ([], false)

/-- emitFile (source lines 32-69): the success flag is computed from
the emit status, the failure branch only logs, every produced artifact
is written unconditionally, and a throwing write exits the function
with the earlier writes already performed. The returned pair is the
result (or the propagated write error) plus the performed writes. -/
def emitFile (svc : EmitSvc) (canWrite : String → Bool) (filePath : String) :
    Except Unit EmitOutput × List (String × String) :=
  let output := svc.getEmitOutput filePath
  let success := output.emitOutputStatus == emitReturnStatusSucceeded
  let w := writeAll canWrite output.outputFiles
  if w.2 then
    let outputFiles := output.outputFiles.map (fun o => o.name)
    let outputFiles :=
      if extname filePath == ".d.ts" then outputFiles ++ [filePath]
      else outputFiles
    (Except.ok { outputFiles := outputFiles, success := success }, w.1)
  else
    (Except.error (), w.1)

theorem writeAll_eq (canWrite : String → Bool) (l : List OutputFile) :
    writeAll canWrite l
      = ((l.takeWhile (fun o => canWrite o.name)).map
           (fun o => (o.name, o.text)),
         l.all (fun o => canWrite o.name)) := by
  induction l with
  | nil => rfl
  | cons o os ih =>
    cases h : canWrite o.name
    · simp [writeAll, h, List.takeWhile_cons, List.all_cons]
    · simp [writeAll, h, List.takeWhile_cons, List.all_cons, ih]

/-- A service producing two artifacts with a failed emit status, and a
file system on which the second artifact is not writable. -/
def svcFail : EmitSvc :=
  { getEmitOutput := fun _ =>
      { outputFiles := [{ name := "m.js", text := "out1" },
                        { name := "bad.js", text := "out2" }]
        emitOutputStatus := 1 } }

/-- File system refusing exactly bad.js. -/
def canWriteNoBad : String → Bool := fun n => n != "bad.js"

/-- C9: the success flag does not gate the disk writes — the writes
emitFile performs are exactly the longest writable prefix of the
artifacts the compiler service produced, an expression independent of
the emit status, so on success and on failure alike every writable
artifact is written; and there is no transactional guarantee:
concretely, with a failed emit whose second artifact is unwritable,
the first artifact's write remains performed. -/
theorem C9_writes_ungated_no_transaction :
    (∀ (svc : EmitSvc) (canWrite : String → Bool) (f : String),
      (emitFile svc canWrite f).2
        = ((svc.getEmitOutput f).outputFiles.takeWhile
            (fun o => canWrite o.name)).map (fun o => (o.name, o.text))) ∧
    emitFile svcFail canWriteNoBad "m.ts"
      = (Except.error (), [("m.js", "out1")]) := by
  constructor
  · intro svc canWrite f
    simp only [emitFile, writeAll_eq]
    split
    · rfl
    · rfl
  · rfl

end ProgramManager
